import Mathlib

/-!
Shallow embedding of porter's sensitive-data sanitization layer:
`pkg/sanitizer/service.go` (the `Service` sanitize/resolve operations) and
`pkg/claims/run.go` (the `Run` lifecycle model).  Go strings and byte
slices are both immutable byte sequences and the code only converts
between them with the identity-preserving `string(b)` / `[]byte(s)`
casts, so both are modelled as `String`.  Go `map[string]T` values are
modelled as association lists with Go's overwrite-on-insert semantics;
a Go map never holds a duplicate key, which appears below as `Nodup`
hypotheses on the key lists.  Fallible Go calls returning `(T, error)`
are modelled as `T × Option GoErr` (or `Except GoErr T` where the Go
code only ever uses the value when the error is nil).
-/

set_option autoImplicit false

namespace Porter

/-- Go `error` values: a base error message, or an error wrapped with a
message (`errors.Wrap` / `errors.WithMessagef` from github.com/pkg/errors). -/
inductive GoErr where
  | base (msg : String)
  | wrap (msg : String) (inner : GoErr)
  deriving DecidableEq, Repr

/-- Modelled from the spec: bundle parameter values are dynamically typed
(`interface\x7b\x7d` in the Go code); the spec directs modelling them as a
closed tagged union of string/number/bool/null. -/
inductive GoValue where
  | null
  | str (s : String)
  | num (n : Int)
  | bool (b : Bool)
  deriving DecidableEq, Repr

/-- Association-list model of a Go `map[string]α`. -/
abbrev GoMap (α : Type) : Type := List (String × α)

/-- Lookup of a key in a Go map (first matching entry; a real Go map
never holds a duplicate key). -/
def goFind {α : Type} : GoMap α → String → Option α
  | [], _ => none
  | (k', v) :: rest, k => if k' = k then some v else goFind rest k

/-- Go map assignment `m[k] = v`: overwrite the existing entry for `k`
if present, otherwise add a new one. -/
def goInsert {α : Type} : GoMap α → String → α → GoMap α
  | [], k, v => [(k, v)]
  | (k', v') :: rest, k, v =>
    if k' = k then (k, v) :: rest else (k', v') :: goInsert rest k v

/-- Copy every entry of `m` into `acc` by Go map assignment, as in
`for key, value := range m \x7b acc[key] = value \x7d`. -/
def goInsertAll {α : Type} (acc : GoMap α) (m : GoMap α) : GoMap α :=
  m.foldl (fun a p => goInsert a p.1 p.2) acc

/-- First-defined choice on options, matching how a Go map lookup falls
back to earlier contents when the later map has no entry. -/
def orDefault {α : Type} (a b : Option α) : Option α :=
  match a with
  | some v => some v
  | none => b

/-- Modelled from the spec: `secrets.Source`, the indirection half of a
strategy (`source:\x7bkey, value\x7d`); the type lives in porter's
`pkg/secrets`, which is not part of the given sources. -/
structure Source where
  key : String
  value : String
  deriving DecidableEq, Repr

/-- Modelled from the spec: `secrets.Strategy`, the value+indirection
record `\x7bname, value, source\x7d` shared by parameters and outputs; the
type lives in porter's `pkg/secrets`, which is not part of the given
sources. -/
structure Strategy where
  name : String
  source : Source
  value : String
  deriving DecidableEq, Repr

/-- Modelled from the spec: `secrets.SourceSecret`, the reserved
secret-indirection marker constant. -/
def SourceSecret : String := "secret"

/-- Modelled from the spec: `parameters.DefaultStrategy(name, value)`
builds a plain strategy (empty source, plaintext value); the function
lives in porter's `pkg/parameters`, which is not part of the given
sources. -/
def DefaultStrategy (name value : String) : Strategy :=
  { name := name, source := { key := "", value := "" }, value := value }

/-- Modelled from the spec: a `parameters.ParameterSet` is a named,
ordered collection of strategies with a boolean internal marker
(`IsInternalParameterSet`); the type lives in porter's `pkg/parameters`,
which is not part of the given sources. -/
structure ParameterSet where
  name : String
  internal : Bool
  parameters : List Strategy
  deriving DecidableEq, Repr

/-- Zero value `parameters.ParameterSet\x7b\x7d` returned by
`EncodeInternalParameterSet` when no internal set exists. -/
def emptyParameterSet : ParameterSet :=
  { name := "", internal := false, parameters := [] }

/-- Modelled from the spec: `claims.Output` (`\x7bname, key, value(bytes)\x7d`
plus the owning run's ID used for key derivation); the type lives in
porter's `pkg/claims` outside the given sources. -/
structure Output where
  name : String
  runID : String
  key : String
  value : String
  deriving DecidableEq, Repr

/-- Modelled from the spec: `claims.NewOutputs` wraps a resolved list of
outputs back into the batch type; the spec describes `Outputs` only as
the batch of outputs, so the batch is modelled as the plain list. -/
def NewOutputs (outputs : List Output) : List Output := outputs

/-- Action semantics record returned by the bundle's `GetAction`
(cnab-go `bundle.Action`): `modifies` and `stateless` flags. -/
structure BundleAction where
  modifies : Bool
  stateless : Bool
  deriving DecidableEq, Repr

/-- Modelled from the spec: the embedded bundle definition together with
the Bundle Metadata Oracle queries the sanitizer and run code make
against it (`cnab.ExtendedBundle` methods, outside the given sources).
Each oracle method is a field so theorems quantify over all oracles. -/
structure Bundle where
  actions : GoMap BundleAction
  isSensitiveParameter : String → Bool
  isOutputSensitive : String → Bool × Option GoErr
  writeParameterToString : String → GoValue → Except GoErr String
  convertParameterValue : String → GoValue → Except GoErr GoValue

/-- Modelled from the spec: `cnab.ExtendedBundle` is a wrapper around
the bundle definition adding the metadata queries, so here it is the
same type. -/
abbrev ExtendedBundle : Type := Bundle

/-- Modelled from the spec: `getAction(name) -> \x7bmodifies, stateless\x7d, err`
on the embedded bundle — the action when the bundle knows it, an error
otherwise. -/
def Bundle.getAction (b : Bundle) (name : String) : Except GoErr BundleAction :=
  match goFind b.actions name with
  | some a => Except.ok a
  | none => Except.error (GoErr.base ("action not defined for bundle: " ++ name))

/-- Secret Store operations over a backend state type `σ`:
`create(sourceKey, sourceValue, plaintext)` returns an error and the
new backend state, `resolve(sourceKey, sourceValue)` returns the
plaintext and an error.  Theorems quantify over implementations. -/
structure SecretsOps (σ : Type) where
  create : σ → String → String → String → Option GoErr × σ
  resolve : σ → String → String → String × Option GoErr

/-- State of the spec-modelled in-memory Secret Store: entries keyed by
the `(sourceKey, sourceValue)` pair, most recent first. -/
abbrev SecretsState : Type := List ((String × String) × String)

/-- Lookup of a key pair in the in-memory Secret Store state. -/
def secFind : SecretsState → String × String → Option String
  | [], _ => none
  | (kv', pt) :: rest, kv => if kv' = kv then some pt else secFind rest kv

/-- Modelled from the spec: Secret Store `create` — fails on a duplicate
key per backend policy, otherwise records the plaintext under the key
pair. -/
def memCreate (s : SecretsState) (k v pt : String) : Option GoErr × SecretsState :=
  match secFind s (k, v) with
  | some _ => (some (GoErr.base "secret already exists"), s)
  | none => (none, ((k, v), pt) :: s)

/-- Modelled from the spec: Secret Store `resolve` — returns the stored
plaintext, or a not-found error when the key pair is absent. -/
def memResolve (s : SecretsState) (k v : String) : String × Option GoErr :=
  match secFind s (k, v) with
  | some pt => (pt, none)
  | none => ("", some (GoErr.base "secret not found"))

/-- Spec-modelled in-memory Secret Store packaged as `SecretsOps`. -/
def memStore : SecretsOps SecretsState :=
  { create := memCreate, resolve := memResolve }

/-- Embeds `encodeSecretParam` (service.go:147-151): point the
strategy's source at the secret store under `id+name`. -/
def encodeSecretParam (param : Strategy) (id : String) : Strategy :=
  { param with source := { key := SourceSecret, value := id ++ param.name } }

/-- Embeds `encodeOutput` (service.go:111-116): derive the storage key
`RunID+Name` and clear the value. -/
def encodeOutput (output : Output) : Output :=
  { output with key := output.runID ++ output.name, value := "" }

/-- The per-strategy result of the `Service.Parameters` loop body: the
strategy is rebuilt as a default strategy from its plain name/value and,
when the bundle reports the name sensitive, replaced by its encoded
form. -/
def sanitizeOne (bun : ExtendedBundle) (id : String) (p : Strategy) : Strategy :=
  let strategy := DefaultStrategy p.name p.value
  if bun.isSensitiveParameter p.name then encodeSecretParam strategy id else strategy

/-- Embeds the loop of `Service.Parameters` (service.go:50-73),
threading the Secret Store state: each strategy is defaulted, sensitive
ones are encoded and their plaintext pushed to the store, and a store
failure aborts with a wrapped error. -/
def paramsLoop {σ : Type} (st : SecretsOps σ) (bun : ExtendedBundle) (id : String) :
    List Strategy → σ → Except GoErr (List Strategy × σ)
  | [], s => Except.ok ([], s)
  | p :: rest, s =>
    let strategy := DefaultStrategy p.name p.value
    if bun.isSensitiveParameter p.name then
      let enc := encodeSecretParam strategy id
      match st.create s enc.source.key enc.source.value enc.value with
      | (some e, _) =>
        Except.error (GoErr.wrap "failed to save sensitive param to secrete store" e)
      | (none, s') =>
        match paramsLoop st bun id rest s' with
        | Except.error e => Except.error e
        | Except.ok (rest', s'') => Except.ok (enc :: rest', s'')
    else
      match paramsLoop st bun id rest s with
      | Except.error e => Except.error e
      | Except.ok (rest', s') => Except.ok (strategy :: rest', s')

namespace Service

/-- Embeds `Service.Parameters` (service.go:50-73).  The Go code
returns a nil slice for an empty result; a nil and an empty Go slice
are observationally equal, so both are the empty list here. -/
def Parameters {σ : Type} (st : SecretsOps σ) (s : σ) (params : List Strategy)
    (bun : ExtendedBundle) (id : String) : Except GoErr (List Strategy × σ) :=
  paramsLoop st bun id params s

/-- Result of converting one resolved raw value in
`Service.ResolveParameterSet` (service.go:83-86): the bundle's canonical
typed form, or the raw value unchanged when conversion fails. -/
def convertOrRaw (bun : ExtendedBundle) (name : String) (v : GoValue) : GoValue :=
  match bun.convertParameterValue name v with
  | Except.ok pv => pv
  | Except.error _ => v

/-- Embeds `Service.ResolveParameterSet` (service.go:75-93).  The
Parameter Provider's `ResolveAll` is not part of the given sources, so
it is passed in as the function `provider` (spec: resolves a parameter
set into a name-to-raw-value mapping, or fails). -/
def ResolveParameterSet (provider : ParameterSet → Except GoErr (GoMap GoValue))
    (pset : ParameterSet) (bun : ExtendedBundle) : Except GoErr (GoMap GoValue) :=
  match provider pset with
  | Except.error e => Except.error e
  | Except.ok params =>
    Except.ok (params.foldl (fun acc p => goInsert acc p.1 (convertOrRaw bun p.1 p.2)) [])

/-- Embeds `Service.Output` (service.go:95-109): non-sensitive outputs
(or a failing sensitivity check) pass through with the check's error;
sensitive outputs are encoded, their original plaintext pushed to the
store, and on store failure the already-encoded output is returned
together with the error.  The resulting store state is threaded
explicitly. -/
def Output {σ : Type} (st : SecretsOps σ) (s : σ) (output : Porter.Output)
    (bun : ExtendedBundle) : (Porter.Output × Option GoErr) × σ :=
  let p := bun.isOutputSensitive output.name
  if p.2.isSome || !p.1 then ((output, p.2), s)
  else
    let secretOt := encodeOutput output
    match st.create s SourceSecret secretOt.key output.value with
    | (some e, s') => ((secretOt, some e), s')
    | (none, s') => ((secretOt, none), s')

/-- Embeds `Service.ResolveOutput` (service.go:137-145): fetch the
plaintext from the store under the fixed secret marker and the output's
key; on failure return the output unchanged with the error. -/
def ResolveOutput {σ : Type} (st : SecretsOps σ) (s : σ) (output : Porter.Output) :
    Porter.Output × Option GoErr :=
  match st.resolve s SourceSecret output.key with
  | (resolved, none) => ({ output with value := resolved }, none)
  | (_, some e) => (output, some e)

end Service

/-- Message the `ResolveOutputs` loop wraps around a resolution failure
(`errors.WithMessagef(err, "failed to resolve output %q using key %q",
ot.Name, ot.Key)`); `%q` renders a plain string in double quotes. -/
def resolveFailMsg (name key : String) : String :=
  "failed to resolve output \"" ++ name ++ "\" using key \"" ++ key ++ "\""

/-- Embeds the loop of `Service.ResolveOutputs` (service.go:118-135):
non-sensitive outputs (or a failing sensitivity check) are passed
through; sensitive outputs are resolved, and the first resolution
failure aborts with the wrapped error. -/
def resolveOutputsLoop {σ : Type} (st : SecretsOps σ) (s : σ) (bun : ExtendedBundle) :
    List Output → Except GoErr (List Output)
  | [] => Except.ok []
  | ot :: rest =>
    let p := bun.isOutputSensitive ot.name
    if p.2.isSome || !p.1 then
      match resolveOutputsLoop st s bun rest with
      | Except.error e => Except.error e
      | Except.ok rs => Except.ok (ot :: rs)
    else
      match Service.ResolveOutput st s ot with
      | (_, some e) => Except.error (GoErr.wrap (resolveFailMsg ot.name ot.key) e)
      | (r, none) =>
        match resolveOutputsLoop st s bun rest with
        | Except.error e => Except.error e
        | Except.ok rs => Except.ok (r :: rs)

namespace Service

/-- Embeds `Service.ResolveOutputs` (service.go:118-135): on any
resolution failure the original batch is returned together with the
wrapped error; otherwise the resolved list is rewrapped via
`NewOutputs`. -/
def ResolveOutputs {σ : Type} (st : SecretsOps σ) (s : σ) (o : List Porter.Output)
    (bun : ExtendedBundle) : List Porter.Output × Option GoErr :=
  match resolveOutputsLoop st s bun o with
  | Except.ok resolved => (NewOutputs resolved, none)
  | Except.error e => (o, some e)

end Service

/-- Embeds the `Run` record (run.go:17-66).  External field types are
modelled by their used content: the embedded bundle carries its actions
and metadata oracle, timestamps are abstract naturals, and the custom
payload is a dynamic value.  The transient `Parameters` field (tagged
`json:"-"`) is the resolved name-to-value mapping. -/
structure Run where
  schemaVersion : String
  id : String
  created : Nat
  namespace' : String
  installation : String
  revision : String
  action : String
  bundle : Bundle
  bundleReference : String
  bundleDigest : String
  parameterOverrides : GoMap GoValue
  credentialSets : List String
  parameterSets : List ParameterSet
  parameters : GoMap GoValue
  custom : GoValue

/-- Embeds `Run.ShouldRecord` (run.go:88-99): assume modifying and
stateful; when the bundle knows the action, take its declared flags;
record when modifying or stateful. -/
def Run.ShouldRecord (r : Run) : Bool :=
  match r.bundle.getAction r.action with
  | Except.ok action => action.modifies || !action.stateless
  | Except.error _ => true || true

/-- The inner loop of `Run.EncodeInternalParameterSet` (run.go:157-164):
rewrite each sensitive parameter's source to the secret indirection
keyed by `runID+paramName`. -/
def encodeInternalParams (bun : ExtendedBundle) (id : String)
    (params : List Strategy) : List Strategy :=
  params.map (fun param =>
    if bun.isSensitiveParameter param.name then
      { param with source := { key := SourceSecret, value := id ++ param.name } }
    else param)

/-- The scan of `Run.EncodeInternalParameterSet` over the parameter
sets (run.go:150-171): skip non-internal sets; encode the first
internal one in place and stop. -/
def encodeInternalAux (bun : ExtendedBundle) (id : String) :
    List ParameterSet → ParameterSet × Bool × List ParameterSet
  | [] => (emptyParameterSet, false, [])
  | pset :: rest =>
    if !pset.internal then
      match encodeInternalAux bun id rest with
      | (p, found, rest') => (p, found, pset :: rest')
    else
      let pset' := { pset with parameters := encodeInternalParams bun id pset.parameters }
      (pset', true, pset' :: rest)

/-- Embeds `Run.EncodeInternalParameterSet` (run.go:149-172).  The Go
method mutates the receiver's `ParameterSets` slice; that mutation is
modelled as the returned `Run`. -/
def Run.EncodeInternalParameterSet (r : Run) : ParameterSet × Bool × Run :=
  match encodeInternalAux r.bundle r.id r.parameterSets with
  | (p, found, sets) => (p, found, { r with parameterSets := sets })

/-- The loop of `Run.ResolveSensitiveData` (run.go:179-188): resolve
each parameter set and copy its entries into the accumulated mapping by
Go map assignment, so later sets overwrite earlier ones. -/
def resolveSetsLoop (resolve : ParameterSet → ExtendedBundle → Except GoErr (GoMap GoValue))
    (bun : ExtendedBundle) : List ParameterSet → GoMap GoValue → Except GoErr (GoMap GoValue)
  | [], acc => Except.ok acc
  | pset :: rest, acc =>
    match resolve pset bun with
    | Except.error e => Except.error e
    | Except.ok params => resolveSetsLoop resolve bun rest (goInsertAll acc params)

/-- Embeds `Run.ResolveSensitiveData` (run.go:176-192).
`ParameterSet.Resolve` lives in porter's `pkg/parameters`, outside the
given sources, so it is passed in as the function `resolve` (spec: the
Parameter Provider resolves all of a set's strategies against the
embedded bundle metadata into a name-to-value mapping).  On failure the
run is returned unchanged together with the error; on success the
merged mapping is stored in the transient `parameters` field only. -/
def Run.ResolveSensitiveData
    (resolve : ParameterSet → ExtendedBundle → Except GoErr (GoMap GoValue))
    (r : Run) : Run × Option GoErr :=
  match resolveSetsLoop resolve r.bundle r.parameterSets [] with
  | Except.error e => (r, some e)
  | Except.ok resolved => ({ r with parameters := resolved }, none)

/-- Spec-side merge of a list of per-set mappings where, for every
name, the value from the latest set in list order containing the name
wins. -/
def laterWins : List (GoMap GoValue) → String → Option GoValue
  | [], _ => none
  | m :: rest, k => orDefault (laterWins rest k) (goFind m k)

/-! Concrete fixtures used to instantiate the theorems below on
executable inputs. -/

/-- Bundle fixture: no sensitive parameters or outputs, no declared
actions, identity conversions. -/
def bunPlain : Bundle :=
  { actions := []
    isSensitiveParameter := fun _ => false
    isOutputSensitive := fun _ => (false, none)
    writeParameterToString := fun _ _ => Except.ok ""
    convertParameterValue := fun _ v => Except.ok v }

/-- Bundle fixture: exactly the parameter named `pass` is sensitive. -/
def bunSensPass : Bundle :=
  { bunPlain with isSensitiveParameter := fun n => n == "pass" }

/-- Bundle fixture: every output is sensitive. -/
def bunOutSens : Bundle :=
  { bunPlain with isOutputSensitive := fun _ => (true, none) }

/-- Bundle fixture: converting the parameter named `port` fails, every
other conversion is the identity. -/
def bunConvFail : Bundle :=
  { bunPlain with convertParameterValue := fun n v =>
      if n = "port" then Except.error (GoErr.base "bad conversion") else Except.ok v }

/-- Bundle fixture: one declared action `dry-run` that neither modifies
resources nor keeps state. -/
def bunDryRun : Bundle :=
  { bunPlain with actions := [("dry-run", { modifies := false, stateless := true })] }

/-- Strategy fixture carrying a pre-existing (non-secret) indirection. -/
def stratEnvColor : Strategy :=
  { name := "color", source := { key := "env", value := "COLOR" }, value := "blue" }

/-- Strategy fixture for a sensitive parameter with a plain source. -/
def stratPass : Strategy :=
  { name := "pass", source := { key := "", value := "" }, value := "hunter2" }

/-- Output fixture with a non-empty payload. -/
def outLog : Output :=
  { name := "log", runID := "r1", key := "", value := "hello" }

/-- Output fixture that already carries its storage key, as a persisted
sensitive output would. -/
def outLogKeyed : Output :=
  { name := "log", runID := "r1", key := "r1log", value := "" }

/-- Run fixture builder: identity fields are fixed, the bundle, action
and parameter sets vary per test. -/
def mkRun (id action : String) (bun : Bundle) (sets : List ParameterSet) : Run :=
  { schemaVersion := "v1"
    id := id
    created := 0
    namespace' := "dev"
    installation := "mybuns"
    revision := "rev1"
    action := action
    bundle := bun
    bundleReference := "ref"
    bundleDigest := ""
    parameterOverrides := []
    credentialSets := []
    parameterSets := sets
    parameters := []
    custom := GoValue.null }

/-- Non-internal parameter set fixture named `s1`. -/
def psetS1 : ParameterSet := { name := "s1", internal := false, parameters := [] }

/-- Non-internal parameter set fixture named `s2`. -/
def psetS2 : ParameterSet := { name := "s2", internal := false, parameters := [] }

/-- Resolver fixture for the merge example: set `s1` resolves to
`a=1, b=2` and every other set to `b=3, c=4`. -/
def resolveMergeEx : ParameterSet → ExtendedBundle → Except GoErr (GoMap GoValue) :=
  fun pset _ =>
    if pset.name = "s1" then Except.ok [("a", GoValue.num 1), ("b", GoValue.num 2)]
    else Except.ok [("b", GoValue.num 3), ("c", GoValue.num 4)]

/-- Provider fixture: resolves any set to raw values for `port` and
`host`. -/
def providerPortHost : ParameterSet → Except GoErr (GoMap GoValue) :=
  fun _ => Except.ok [("port", GoValue.str "8080"), ("host", GoValue.str "localhost")]

/-- Run fixture for the merge example: two non-internal sets resolved
by `resolveMergeEx`. -/
def runMergeEx : Run := mkRun "r8" "install" bunPlain [psetS1, psetS2]

/-- Run fixture whose action is declared non-modifying and stateless. -/
def runDryRun : Run := mkRun "r7" "dry-run" bunDryRun []

/-- Run fixture with two parameter sets, neither internal. -/
def runNoInternal : Run := mkRun "r10" "install" bunSensPass [psetS1, psetS2]

/-- Secret Store state fixture already holding an entry under the key
pair a sensitive `log` output of run `r1` would use. -/
def stateWithLog : SecretsState := [(("secret", "r1log"), "old")]

/-- The wrapped error `ResolveOutputs` produces for `outLogKeyed`
against an empty store. -/
def errLogNotFound : GoErr :=
  GoErr.wrap (resolveFailMsg "log" "r1log") (GoErr.base "secret not found")

/-! Helper lemmas about the Go-map and Secret-Store models. -/

theorem goFind_goInsert_self {α : Type} (m : GoMap α) (k : String) (v : α) :
    goFind (goInsert m k v) k = some v := by
  induction m with
  | nil => simp [goInsert, goFind]
  | cons p rest ih =>
    obtain ⟨k', v'⟩ := p
    by_cases h : k' = k
    · simp [goInsert, h, goFind]
    · simp [goInsert, h, goFind, ih]

theorem goFind_goInsert_ne {α : Type} (m : GoMap α) (k k' : String) (v : α)
    (h : k' ≠ k) : goFind (goInsert m k v) k' = goFind m k' := by
  induction m with
  | nil => simp [goInsert, goFind, Ne.symm h]
  | cons p rest ih =>
    obtain ⟨k₀, v₀⟩ := p
    by_cases h₀ : k₀ = k
    · subst h₀
      simp [goInsert, goFind, Ne.symm h]
    · by_cases h₁ : k₀ = k'
      · subst h₁
        simp [goInsert, goFind, h₀]
      · simp [goInsert, goFind, h₀, h₁, ih]

theorem goFind_eq_none_of_not_mem {α : Type} (m : GoMap α) (k : String)
    (h : k ∉ m.map Prod.fst) : goFind m k = none := by
  induction m with
  | nil => rfl
  | cons p rest ih =>
    obtain ⟨k₀, v₀⟩ := p
    simp only [List.map_cons, List.mem_cons] at h
    push_neg at h
    simp [goFind, Ne.symm h.1, ih h.2]

theorem orDefault_assoc {α : Type} (a b c : Option α) :
    orDefault (orDefault a b) c = orDefault a (orDefault b c) := by
  cases a <;> simp [orDefault]

theorem goFind_foldl_insert {α β : Type} (f : String → α → β) :
    ∀ (ps : List (String × α)) (acc : GoMap β) (k : String),
      (ps.map Prod.fst).Nodup →
      goFind (ps.foldl (fun a p => goInsert a p.1 (f p.1 p.2)) acc) k
        = orDefault ((goFind ps k).map (f k)) (goFind acc k) := by
  intro ps
  induction ps with
  | nil => intro acc k _; simp [goFind, orDefault]
  | cons p rest ih =>
    intro acc k hnd
    obtain ⟨k₀, v₀⟩ := p
    simp only [List.map_cons, List.nodup_cons] at hnd
    rw [List.foldl_cons, ih _ k hnd.2]
    by_cases hk : k₀ = k
    · subst hk
      have hnone : goFind rest k₀ = none := goFind_eq_none_of_not_mem rest k₀ hnd.1
      simp [goFind, hnone, orDefault, goFind_goInsert_self]
    · have := goFind_goInsert_ne acc k₀ k (f k₀ v₀) (fun hh => hk hh.symm)
      simp [goFind, hk, this]

theorem goFind_goInsertAll (m : GoMap GoValue) (acc : GoMap GoValue) (k : String)
    (hnd : (m.map Prod.fst).Nodup) :
    goFind (goInsertAll acc m) k = orDefault (goFind m k) (goFind acc k) := by
  have h := goFind_foldl_insert (fun _ v => v) m acc k hnd
  simpa [goInsertAll, Option.map_id'] using h

theorem secFind_cons_self (s : SecretsState) (kv : String × String) (pt : String) :
    secFind ((kv, pt) :: s) kv = some pt := by
  simp [secFind]

theorem secFind_cons_ne (s : SecretsState) (kv kv' : String × String) (pt : String)
    (h : kv ≠ kv') : secFind ((kv, pt) :: s) kv' = secFind s kv' := by
  simp [secFind, h]

theorem memCreate_ok (s : SecretsState) (k v pt : String) (s₁ : SecretsState)
    (h : memCreate s k v pt = (none, s₁)) :
    secFind s (k, v) = none ∧ s₁ = ((k, v), pt) :: s := by
  unfold memCreate at h
  cases hf : secFind s (k, v) with
  | none =>
    rw [hf] at h
    simp only [Prod.mk.injEq] at h
    exact ⟨rfl, h.2.symm⟩
  | some pt' =>
    rw [hf] at h
    simp at h

theorem paramsLoop_cons_sens {σ : Type} (st : SecretsOps σ) (bun : ExtendedBundle)
    (id : String) (p : Strategy) (rest : List Strategy) (s : σ)
    (hs : bun.isSensitiveParameter p.name = true) :
    paramsLoop st bun id (p :: rest) s =
      match st.create s SourceSecret (id ++ p.name) p.value with
      | (some e, _) =>
        Except.error (GoErr.wrap "failed to save sensitive param to secrete store" e)
      | (none, s') =>
        match paramsLoop st bun id rest s' with
        | Except.error e => Except.error e
        | Except.ok (rest', s'') =>
          Except.ok (encodeSecretParam (DefaultStrategy p.name p.value) id :: rest', s'') := by
  simp [paramsLoop, hs, encodeSecretParam, DefaultStrategy]

theorem paramsLoop_cons_plain {σ : Type} (st : SecretsOps σ) (bun : ExtendedBundle)
    (id : String) (p : Strategy) (rest : List Strategy) (s : σ)
    (hs : bun.isSensitiveParameter p.name = false) :
    paramsLoop st bun id (p :: rest) s =
      match paramsLoop st bun id rest s with
      | Except.error e => Except.error e
      | Except.ok (rest', s') => Except.ok (DefaultStrategy p.name p.value :: rest', s') := by
  simp [paramsLoop, hs]

theorem paramsLoop_ok_map {σ : Type} (st : SecretsOps σ) (bun : ExtendedBundle)
    (id : String) :
    ∀ (ps : List Strategy) (s : σ) (out : List Strategy) (s' : σ),
      paramsLoop st bun id ps s = Except.ok (out, s') →
      out = ps.map (sanitizeOne bun id) := by
  intro ps
  induction ps with
  | nil =>
    intro s out s' h
    simp only [paramsLoop, Except.ok.injEq, Prod.mk.injEq] at h
    simp [h.1.symm]
  | cons p rest ih =>
    intro s out s' h
    by_cases hs : bun.isSensitiveParameter p.name = true
    · rw [paramsLoop_cons_sens st bun id p rest s hs] at h
      cases hcr : st.create s SourceSecret (id ++ p.name) p.value with
      | mk oe s₁ =>
        cases oe with
        | some e => rw [hcr] at h; simp at h
        | none =>
          rw [hcr] at h
          dsimp only at h
          cases hrec : paramsLoop st bun id rest s₁ with
          | error e => rw [hrec] at h; simp at h
          | ok pr =>
            obtain ⟨rest', s''⟩ := pr
            rw [hrec] at h
            simp only [Except.ok.injEq, Prod.mk.injEq] at h
            rw [h.1.symm, List.map_cons, ih s₁ rest' s'' hrec]
            simp [sanitizeOne, hs]
    · rw [Bool.not_eq_true] at hs
      rw [paramsLoop_cons_plain st bun id p rest s hs] at h
      cases hrec : paramsLoop st bun id rest s with
      | error e => rw [hrec] at h; simp at h
      | ok pr =>
        obtain ⟨rest', s₁⟩ := pr
        rw [hrec] at h
        simp only [Except.ok.injEq, Prod.mk.injEq] at h
        rw [h.1.symm, List.map_cons, ih s rest' s₁ hrec]
        simp [sanitizeOne, hs]

theorem paramsLoop_preserves_secrets (bun : ExtendedBundle) (id : String) :
    ∀ (ps : List Strategy) (s : SecretsState) (out : List Strategy) (s' : SecretsState),
      paramsLoop memStore bun id ps s = Except.ok (out, s') →
      ∀ (kv : String × String) (pt : String), secFind s kv = some pt → secFind s' kv = some pt := by
  intro ps
  induction ps with
  | nil =>
    intro s out s' h kv pt hkv
    simp only [paramsLoop, Except.ok.injEq, Prod.mk.injEq] at h
    rw [h.2.symm]
    exact hkv
  | cons p rest ih =>
    intro s out s' h kv pt hkv
    by_cases hs : bun.isSensitiveParameter p.name = true
    · rw [paramsLoop_cons_sens memStore bun id p rest s hs] at h
      cases hcr : memStore.create s SourceSecret (id ++ p.name) p.value with
      | mk oe s₁ =>
        cases oe with
        | some e => rw [hcr] at h; simp at h
        | none =>
          rw [hcr] at h
          dsimp only at h
          obtain ⟨hnone, hs₁⟩ := memCreate_ok s SourceSecret (id ++ p.name) p.value s₁ hcr
          cases hrec : paramsLoop memStore bun id rest s₁ with
          | error e => rw [hrec] at h; simp at h
          | ok pr =>
            obtain ⟨rest', s''⟩ := pr
            rw [hrec] at h
            simp only [Except.ok.injEq, Prod.mk.injEq] at h
            rw [h.2.symm]
            refine ih s₁ rest' s'' hrec kv pt ?_
            rw [hs₁]
            have hne : (SourceSecret, id ++ p.name) ≠ kv := by
              intro hcon
              rw [hcon, hkv] at hnone
              exact Option.noConfusion hnone
            rw [secFind_cons_ne s _ kv p.value hne]
            exact hkv
    · rw [Bool.not_eq_true] at hs
      rw [paramsLoop_cons_plain memStore bun id p rest s hs] at h
      cases hrec : paramsLoop memStore bun id rest s with
      | error e => rw [hrec] at h; simp at h
      | ok pr =>
        obtain ⟨rest', s₁⟩ := pr
        rw [hrec] at h
        simp only [Except.ok.injEq, Prod.mk.injEq] at h
        rw [h.2.symm]
        exact ih s rest' s₁ hrec kv pt hkv

theorem paramsLoop_stores_sensitive (bun : ExtendedBundle) (id : String) :
    ∀ (ps : List Strategy) (s : SecretsState) (out : List Strategy) (s' : SecretsState),
      paramsLoop memStore bun id ps s = Except.ok (out, s') →
      ∀ (i : Nat) (hi : i < ps.length),
        bun.isSensitiveParameter (ps.get ⟨i, hi⟩).name = true →
        secFind s' (SourceSecret, id ++ (ps.get ⟨i, hi⟩).name) = some (ps.get ⟨i, hi⟩).value := by
  intro ps
  induction ps with
  | nil => intro s out s' h i hi; exact absurd hi (Nat.not_lt_zero i)
  | cons p rest ih =>
    intro s out s' h i hi hsens
    by_cases hs : bun.isSensitiveParameter p.name = true
    · rw [paramsLoop_cons_sens memStore bun id p rest s hs] at h
      cases hcr : memStore.create s SourceSecret (id ++ p.name) p.value with
      | mk oe s₁ =>
        cases oe with
        | some e => rw [hcr] at h; simp at h
        | none =>
          rw [hcr] at h
          dsimp only at h
          obtain ⟨hnone, hs₁⟩ := memCreate_ok s SourceSecret (id ++ p.name) p.value s₁ hcr
          cases hrec : paramsLoop memStore bun id rest s₁ with
          | error e => rw [hrec] at h; simp at h
          | ok pr =>
            obtain ⟨rest', s''⟩ := pr
            rw [hrec] at h
            simp only [Except.ok.injEq, Prod.mk.injEq] at h
            cases i with
            | zero =>
              rw [h.2.symm]
              refine paramsLoop_preserves_secrets bun id rest s₁ rest' s'' hrec _ _ ?_
              rw [hs₁]
              exact secFind_cons_self s _ p.value
            | succ j =>
              rw [h.2.symm]
              exact ih s₁ rest' s'' hrec j (Nat.lt_of_succ_lt_succ hi) hsens
    · cases i with
      | zero => exact absurd hsens hs
      | succ j =>
        rw [Bool.not_eq_true] at hs
        rw [paramsLoop_cons_plain memStore bun id p rest s hs] at h
        cases hrec : paramsLoop memStore bun id rest s with
        | error e => rw [hrec] at h; simp at h
        | ok pr =>
          obtain ⟨rest', s₁⟩ := pr
          rw [hrec] at h
          simp only [Except.ok.injEq, Prod.mk.injEq] at h
          rw [h.2.symm]
          exact ih s rest' s₁ hrec j (Nat.lt_of_succ_lt_succ hi) hsens

theorem get_map_at {α β : Type} (f : α → β) (l : List α) (i : Nat)
    (hi : i < l.length) (hi' : i < (l.map f).length) :
    (l.map f).get ⟨i, hi'⟩ = f (l.get ⟨i, hi⟩) := by
  simp

theorem sanitizeOne_sens (bun : ExtendedBundle) (id : String) (q : Strategy)
    (h : bun.isSensitiveParameter q.name = true) :
    sanitizeOne bun id q = encodeSecretParam (DefaultStrategy q.name q.value) id := by
  simp [sanitizeOne, h]

theorem sanitizeOne_value (bun : ExtendedBundle) (id : String) (q : Strategy) :
    (sanitizeOne bun id q).value = q.value := by
  by_cases h : bun.isSensitiveParameter q.name = true
  · simp [sanitizeOne, h, encodeSecretParam, DefaultStrategy]
  · rw [Bool.not_eq_true] at h
    simp [sanitizeOne, h, DefaultStrategy]

/-- C1: for every strategy list, run ID and bundle metadata under which a
parameter name is sensitive, after `Parameters` succeeds the strategy
returned at that position has `source.key` equal to the reserved secret
marker, `source.value` equal to `runID+name`, and the Secret Store holds
the parameter's plaintext value under the key pair
`(secret marker, runID+name)`. -/
theorem parameters_sensitive_encodes_and_stores
    (s : SecretsState) (ps : List Strategy) (bun : ExtendedBundle) (id : String)
    (out : List Strategy) (s' : SecretsState) (i : Nat) (hi : i < ps.length)
    (hok : Service.Parameters memStore s ps bun id = Except.ok (out, s'))
    (hsens : bun.isSensitiveParameter (ps.get ⟨i, hi⟩).name = true) :
    ∃ hi' : i < out.length,
      (out.get ⟨i, hi'⟩).source.key = SourceSecret ∧
      (out.get ⟨i, hi'⟩).source.value = id ++ (ps.get ⟨i, hi⟩).name ∧
      secFind s' (SourceSecret, id ++ (ps.get ⟨i, hi⟩).name) = some (ps.get ⟨i, hi⟩).value := by
  have hmap := paramsLoop_ok_map memStore bun id ps s out s' hok
  have hi' : i < out.length := by
    rw [hmap, List.length_map]
    exact hi
  have hget : out.get ⟨i, hi'⟩ = sanitizeOne bun id (ps.get ⟨i, hi⟩) := by
    subst hmap
    exact get_map_at (sanitizeOne bun id) ps i hi hi'
  refine ⟨hi', ?_, ?_, ?_⟩
  · rw [hget, sanitizeOne_sens bun id _ hsens]
    rfl
  · rw [hget, sanitizeOne_sens bun id _ hsens]
    rfl
  · exact paramsLoop_stores_sensitive bun id ps s out s' hok i hi hsens

/-- Closed instance of C1: sanitizing the sensitive `pass` parameter of
run `01A` leaves its plaintext in the store under `(secret, 01Apass)`. -/
theorem parameters_sensitive_encodes_and_stores_witness :
    secFind [(("secret", "01Apass"), "hunter2")] ("secret", "01Apass") = some "hunter2" := by
  have h := parameters_sensitive_encodes_and_stores [] [stratPass] bunSensPass "01A"
      [{ name := "pass", source := { key := "secret", value := "01Apass" }, value := "hunter2" }]
      [(("secret", "01Apass"), "hunter2")] 0 (by decide) rfl rfl
  obtain ⟨_, _, _, h3⟩ := h
  exact h3

/-- C2: the encoded strategy that `Parameters` returns still carries the
original plaintext in its `value` field — `encodeSecretParam` sets only
`source.key` and `source.value` and never clears `value`, unlike
`encodeOutput`, which sets the output's value to the empty byte slice;
consequently every strategy position returned by `Parameters` keeps the
input's `value`. -/
theorem encoded_param_keeps_plaintext_value
    {σ : Type} (st : SecretsOps σ) (s : σ) (p : Strategy) (id : String) (o : Output)
    (ps : List Strategy) (bun : ExtendedBundle) (out : List Strategy) (s' : σ)
    (hok : Service.Parameters st s ps bun id = Except.ok (out, s')) :
    (encodeSecretParam p id).value = p.value ∧
    (encodeSecretParam p id).name = p.name ∧
    (encodeSecretParam p id).source = { key := SourceSecret, value := id ++ p.name } ∧
    (encodeOutput o).value = "" ∧
    ∀ (i : Nat) (hi : i < ps.length) (hi' : i < out.length),
      (out.get ⟨i, hi'⟩).value = (ps.get ⟨i, hi⟩).value := by
  refine ⟨rfl, rfl, rfl, rfl, ?_⟩
  intro i hi hi'
  have hmap := paramsLoop_ok_map st bun id ps s out s' hok
  have hget : out.get ⟨i, hi'⟩ = sanitizeOne bun id (ps.get ⟨i, hi⟩) := by
    subst hmap
    exact get_map_at (sanitizeOne bun id) ps i hi hi'
  rw [hget, sanitizeOne_value]

/-- Closed instance of C2: the encoded sensitive `pass` strategy still
carries its plaintext value. -/
theorem encoded_param_keeps_plaintext_value_witness :
    (encodeSecretParam stratPass "01A").value = "hunter2" := by
  have h := encoded_param_keeps_plaintext_value memStore [] stratPass "01A" outLog
      [stratPass] bunSensPass
      [{ name := "pass", source := { key := "secret", value := "01Apass" }, value := "hunter2" }]
      [(("secret", "01Apass"), "hunter2")] rfl
  exact h.1

/-- Counterexample to C4 as stated: a non-sensitive strategy carrying a
pre-existing indirection is not returned unchanged — `Parameters`
rebuilds it as a default strategy, stripping the `env` source. -/
theorem parameters_unchanged_counterexample :
    Service.Parameters memStore [] [stratEnvColor] bunPlain "01A"
        = Except.ok ([DefaultStrategy "color" "blue"], []) ∧
    DefaultStrategy "color" "blue" ≠ stratEnvColor := by
  exact ⟨rfl, by decide⟩

/-- C4 (amended): for a single-strategy input whose parameter name is
non-sensitive, `Parameters` returns the strategy rebuilt as a default
strategy from its name and value — hence unchanged whenever its source
is already empty — and performs no Secret Store create call; for every
input list, the output preserves order and positional correspondence,
each position being the defaulted-then-possibly-encoded form of the
input at that position. -/
theorem parameters_non_sensitive_default_and_order
    {σ : Type} (st : SecretsOps σ) (s : σ) (bun : ExtendedBundle) (id : String)
    (p : Strategy) (hns : bun.isSensitiveParameter p.name = false) :
    Service.Parameters st s [p] bun id = Except.ok ([DefaultStrategy p.name p.value], s) ∧
    (p.source = { key := "", value := "" } →
      Service.Parameters st s [p] bun id = Except.ok ([p], s)) ∧
    ∀ (ps : List Strategy) (out : List Strategy) (s' : σ),
      Service.Parameters st s ps bun id = Except.ok (out, s') →
      out = ps.map (sanitizeOne bun id) := by
  have hone : Service.Parameters st s [p] bun id
      = Except.ok ([DefaultStrategy p.name p.value], s) := by
    show paramsLoop st bun id [p] s = Except.ok ([DefaultStrategy p.name p.value], s)
    rw [paramsLoop_cons_plain st bun id p [] s hns]
    rfl
  refine ⟨hone, ?_, ?_⟩
  · intro hsrc
    have hp : DefaultStrategy p.name p.value = p := by
      cases p with
      | mk nm src v => cases hsrc; rfl
    rw [hone, hp]
  · intro ps out s' hok
    exact paramsLoop_ok_map st bun id ps s out s' hok

/-- Closed instance of C4 (amended): the non-sensitive `color` strategy
with an `env` indirection comes back as its defaulted form with the
store untouched. -/
theorem parameters_non_sensitive_default_and_order_witness :
    Service.Parameters memStore [] [stratEnvColor] bunPlain "01A"
        = Except.ok ([DefaultStrategy "color" "blue"], []) := by
  have h := parameters_non_sensitive_default_and_order memStore [] bunPlain "01A"
      stratEnvColor rfl
  exact h.1

theorem encodeOutput_key (o : Output) : (encodeOutput o).key = o.runID ++ o.name := rfl

/-- C3: for every output with a non-empty payload that bundle metadata
reports as sensitive, sanitizing it with `Output` and then resolving the
sanitized output with `ResolveOutput` against the resulting Secret Store
state reproduces the original bytes exactly, with no error. -/
theorem output_resolve_roundtrip
    (s : SecretsState) (o : Output) (bun : ExtendedBundle)
    (_hne : o.value ≠ "")
    (hsens : bun.isOutputSensitive o.name = (true, none))
    (o' : Output) (s' : SecretsState)
    (hok : Service.Output memStore s o bun = ((o', none), s')) :
    (Service.ResolveOutput memStore s' o').1.value = o.value ∧
    (Service.ResolveOutput memStore s' o').2 = none := by
  cases hcr : memCreate s SourceSecret (o.runID ++ o.name) o.value with
  | mk oe s₁ =>
    cases oe with
    | some e =>
      have hbad : Service.Output memStore s o bun = ((encodeOutput o, some e), s₁) := by
        simp [Service.Output, hsens, memStore, encodeOutput_key, hcr]
      rw [hbad] at hok
      simp at hok
    | none =>
      have hgood : Service.Output memStore s o bun = ((encodeOutput o, none), s₁) := by
        simp [Service.Output, hsens, memStore, encodeOutput_key, hcr]
      rw [hgood] at hok
      obtain ⟨hnone, hs₁⟩ := memCreate_ok s SourceSecret (o.runID ++ o.name) o.value s₁ hcr
      simp only [Prod.mk.injEq] at hok
      obtain ⟨⟨ho', _⟩, hs'⟩ := hok
      have hres : Service.ResolveOutput memStore s' o' = ({ o' with value := o.value }, none) := by
        rw [← hs', hs₁, ← ho']
        simp [Service.ResolveOutput, memStore, memResolve, encodeOutput, secFind]
      rw [hres]
      exact ⟨rfl, rfl⟩

/-- Closed instance of C3: the sensitive `log` output of run `r1` with
payload `hello` round-trips through the store. -/
theorem output_resolve_roundtrip_witness :
    (Service.ResolveOutput memStore [(("secret", "r1log"), "hello")]
        { name := "log", runID := "r1", key := "r1log", value := "" }).1.value = "hello" := by
  have h := output_resolve_roundtrip [] outLog bunOutSens (by decide) rfl
      { name := "log", runID := "r1", key := "r1log", value := "" }
      [(("secret", "r1log"), "hello")] rfl
  exact h.1

/-- C6: for every sensitive output, if the Secret Store create fails,
`Output` returns the already-mutated output — key set to `runID+name`
and value cleared — together with the error; if the output is
non-sensitive or the sensitivity check itself errors, `Output` returns
the output unchanged, propagating any check error. -/
theorem output_partial_and_passthrough
    {σ : Type} (st : SecretsOps σ) (s : σ) (o : Output) (bun : ExtendedBundle) :
    (∀ (e : GoErr) (s₁ : σ),
      bun.isOutputSensitive o.name = (true, none) →
      st.create s SourceSecret (o.runID ++ o.name) o.value = (some e, s₁) →
      Service.Output st s o bun
        = (({ o with key := o.runID ++ o.name, value := "" }, some e), s₁)) ∧
    (∀ (b : Bool) (eo : Option GoErr),
      bun.isOutputSensitive o.name = (b, eo) →
      (eo.isSome = true ∨ b = false) →
      Service.Output st s o bun = ((o, eo), s)) := by
  constructor
  · intro e s₁ hsens hcr
    show Service.Output st s o bun = ((encodeOutput o, some e), s₁)
    simp [Service.Output, hsens, encodeOutput_key, hcr]
  · intro b eo heq hcond
    have hc : (eo.isSome || !b) = true := by
      cases hcond with
      | inl h => simp [h]
      | inr h => simp [h]
    simp [Service.Output, heq, hc]

/-- Closed instance of C6: with `(secret, r1log)` already taken, the
create for the sensitive `log` output fails and `Output` returns the
key-bearing, value-cleared output together with the duplicate error. -/
theorem output_partial_and_passthrough_witness :
    Service.Output memStore stateWithLog outLog bunOutSens
      = (({ name := "log", runID := "r1", key := "r1log", value := "" },
          some (GoErr.base "secret already exists")), stateWithLog) := by
  have h := (output_partial_and_passthrough memStore stateWithLog outLog bunOutSens).1
      (GoErr.base "secret already exists") stateWithLog rfl rfl
  exact h

/-- C7: `ShouldRecord` returns false exactly when the action is known to
the embedded bundle and declared both non-modifying and stateless; every
other combination, including an unknown action, records. -/
theorem shouldRecord_false_iff (r : Run) :
    Run.ShouldRecord r = false ↔
      ∃ a : BundleAction, r.bundle.getAction r.action = Except.ok a ∧
        a.modifies = false ∧ a.stateless = true := by
  cases hga : r.bundle.getAction r.action with
  | ok a =>
    obtain ⟨m, stl⟩ := a
    cases m <;> cases stl <;> simp [Run.ShouldRecord, hga]
  | error e =>
    simp [Run.ShouldRecord, hga]

/-- Closed instance of C7: a run of the declared `dry-run` action
(non-modifying, stateless) is not recorded. -/
theorem shouldRecord_false_iff_witness : Run.ShouldRecord runDryRun = false :=
  (shouldRecord_false_iff runDryRun).mpr
    ⟨{ modifies := false, stateless := true }, rfl, rfl, rfl⟩

theorem encodeInternalAux_all_plain (bun : ExtendedBundle) (id : String) :
    ∀ sets : List ParameterSet, (∀ pset ∈ sets, pset.internal = false) →
      encodeInternalAux bun id sets = (emptyParameterSet, false, sets) := by
  intro sets
  induction sets with
  | nil => intro _; rfl
  | cons pset rest ih =>
    intro h
    have h0 : pset.internal = false := h pset (List.mem_cons_self _ _)
    have hr := ih (fun q hq => h q (List.mem_cons_of_mem _ hq))
    simp [encodeInternalAux, h0, hr]

/-- C10: for every run none of whose parameter sets is flagged internal,
`EncodeInternalParameterSet` returns the empty parameter set with the
flag false, and the run — in particular every attached parameter set's
strategies and their source fields — is left unchanged. -/
theorem encode_internal_no_internal_set (r : Run)
    (h : ∀ pset ∈ r.parameterSets, pset.internal = false) :
    Run.EncodeInternalParameterSet r = (emptyParameterSet, false, r) := by
  unfold Run.EncodeInternalParameterSet
  rw [encodeInternalAux_all_plain r.bundle r.id r.parameterSets h]

/-- Closed instance of C10: a run with two non-internal parameter sets
is returned untouched together with `(empty, false)`. -/
theorem encode_internal_no_internal_set_witness :
    Run.EncodeInternalParameterSet runNoInternal = (emptyParameterSet, false, runNoInternal) :=
  encode_internal_no_internal_set runNoInternal (by decide)

theorem goFind_of_mem_nodup {α : Type} (m : GoMap α) (k : String) (v : α)
    (hnd : (m.map Prod.fst).Nodup) (hm : (k, v) ∈ m) : goFind m k = some v := by
  induction m with
  | nil => cases hm
  | cons p rest ih =>
    obtain ⟨k₀, v₀⟩ := p
    simp only [List.map_cons, List.nodup_cons] at hnd
    rcases List.mem_cons.mp hm with heq | hmem
    · cases heq
      simp [goFind]
    · by_cases hk : k₀ = k
      · subst hk
        exact absurd (List.mem_map_of_mem Prod.fst hmem) hnd.1
      · simp [goFind, hk, ih hnd.2 hmem]

/-- C9: for every parameter set that the Parameter Provider resolves
successfully, `ResolveParameterSet` returns without error, and for each
resolved name whose bundle conversion fails, the raw value is used
unchanged in the returned mapping. -/
theorem resolveParameterSet_degrades_to_raw
    (provider : ParameterSet → Except GoErr (GoMap GoValue))
    (pset : ParameterSet) (bun : ExtendedBundle) (params : GoMap GoValue)
    (hok : provider pset = Except.ok params)
    (hnd : (params.map Prod.fst).Nodup) :
    ∃ res, Service.ResolveParameterSet provider pset bun = Except.ok res ∧
      ∀ (name : String) (v : GoValue), (name, v) ∈ params →
        goFind res name
          = some (match bun.convertParameterValue name v with
                  | Except.ok pv => pv
                  | Except.error _ => v) := by
  refine ⟨params.foldl (fun acc p => goInsert acc p.1 (Service.convertOrRaw bun p.1 p.2)) [], ?_, ?_⟩
  · simp [Service.ResolveParameterSet, hok]
  · intro name v hmem
    rw [goFind_foldl_insert (Service.convertOrRaw bun) params [] name hnd,
      goFind_of_mem_nodup params name v hnd hmem]
    rfl

/-- Closed instance of C9: the `port` conversion fails, yet resolution
succeeds and yields the raw `8080` for `port`. -/
theorem resolveParameterSet_degrades_to_raw_witness :
    Service.ResolveParameterSet providerPortHost psetS1 bunConvFail
      = Except.ok [("port", GoValue.str "8080"), ("host", GoValue.str "localhost")] ∧
    goFind [("port", GoValue.str "8080"), ("host", GoValue.str "localhost")] "port"
      = some (GoValue.str "8080") := by
  obtain ⟨res, h1, h2⟩ := resolveParameterSet_degrades_to_raw providerPortHost psetS1 bunConvFail
      [("port", GoValue.str "8080"), ("host", GoValue.str "localhost")] rfl (by decide)
  have hcalc : Service.ResolveParameterSet providerPortHost psetS1 bunConvFail
      = Except.ok [("port", GoValue.str "8080"), ("host", GoValue.str "localhost")] := rfl
  rw [hcalc] at h1
  injection h1 with h1
  subst h1
  exact ⟨hcalc, h2 "port" (GoValue.str "8080") (by decide)⟩

theorem orDefault_none {α : Type} (a : Option α) : orDefault a none = a := by
  cases a <;> rfl

theorem resolveSetsLoop_ok
    (resolve : ParameterSet → ExtendedBundle → Except GoErr (GoMap GoValue))
    (bun : ExtendedBundle) :
    ∀ (sets : List ParameterSet) (ms : List (GoMap GoValue)) (acc : GoMap GoValue),
      List.Forall₂ (fun pset m => resolve pset bun = Except.ok m) sets ms →
      (∀ m ∈ ms, (m.map Prod.fst).Nodup) →
      ∃ res, resolveSetsLoop resolve bun sets acc = Except.ok res ∧
        ∀ k, goFind res k = orDefault (laterWins ms k) (goFind acc k) := by
  intro sets
  induction sets with
  | nil =>
    intro ms acc hf _
    cases hf
    exact ⟨acc, rfl, fun k => rfl⟩
  | cons pset rest ih =>
    intro ms acc hf hnd
    cases hf with
    | cons hhead htail =>
      rename_i m ms'
      obtain ⟨res, hres, hfind⟩ :=
        ih ms' (goInsertAll acc m) htail (fun q hq => hnd q (List.mem_cons_of_mem _ hq))
      refine ⟨res, ?_, ?_⟩
      · simp [resolveSetsLoop, hhead, hres]
      · intro k
        rw [hfind k, goFind_goInsertAll m acc k (hnd m (List.mem_cons_self _ _)),
          ← orDefault_assoc]
        rfl

/-- C8: for every run whose parameter sets all resolve successfully,
`ResolveSensitiveData` merges the per-set mappings into one mapping in
which, for every name, the later set in list order wins, and stores the
result only in the transient `parameters` field, leaving every other
field of the run unchanged. -/
theorem resolveSensitiveData_merges_later_wins
    (resolve : ParameterSet → ExtendedBundle → Except GoErr (GoMap GoValue))
    (r : Run) (ms : List (GoMap GoValue))
    (hms : List.Forall₂ (fun pset m => resolve pset r.bundle = Except.ok m) r.parameterSets ms)
    (hnd : ∀ m ∈ ms, (m.map Prod.fst).Nodup) :
    ∃ merged, Run.ResolveSensitiveData resolve r = ({ r with parameters := merged }, none) ∧
      ∀ k, goFind merged k = laterWins ms k := by
  obtain ⟨res, hres, hfind⟩ := resolveSetsLoop_ok resolve r.bundle r.parameterSets ms [] hms hnd
  refine ⟨res, ?_, ?_⟩
  · simp [Run.ResolveSensitiveData, hres]
  · intro k
    rw [hfind k]
    exact orDefault_none _

/-- Closed instance of C8: sets `[(a=1, b=2), (b=3, c=4)]` resolve to
the merged mapping `(a=1, b=3, c=4)`, the later set winning on `b`. -/
theorem resolveSensitiveData_merges_later_wins_witness :
    goFind (Run.ResolveSensitiveData resolveMergeEx runMergeEx).1.parameters "a"
        = some (GoValue.num 1) ∧
    goFind (Run.ResolveSensitiveData resolveMergeEx runMergeEx).1.parameters "b"
        = some (GoValue.num 3) ∧
    goFind (Run.ResolveSensitiveData resolveMergeEx runMergeEx).1.parameters "c"
        = some (GoValue.num 4) := by
  obtain ⟨merged, h1, h2⟩ := resolveSensitiveData_merges_later_wins resolveMergeEx runMergeEx
      [[("a", GoValue.num 1), ("b", GoValue.num 2)], [("b", GoValue.num 3), ("c", GoValue.num 4)]]
      (List.Forall₂.cons rfl (List.Forall₂.cons rfl List.Forall₂.nil)) (by decide)
  have hp : (Run.ResolveSensitiveData resolveMergeEx runMergeEx).1.parameters = merged := by
    rw [h1]
  rw [hp, h2 "a", h2 "b", h2 "c"]
  exact ⟨rfl, rfl, rfl⟩

theorem resolveOutputsLoop_ok {σ : Type} (st : SecretsOps σ) (s : σ) (bun : ExtendedBundle) :
    ∀ (l res : List Output), resolveOutputsLoop st s bun l = Except.ok res →
      res.length = l.length ∧
      ∀ (i : Nat) (hi : i < l.length),
        ((bun.isOutputSensitive (l.get ⟨i, hi⟩).name).2.isSome = true ∨
         (bun.isOutputSensitive (l.get ⟨i, hi⟩).name).1 = false) →
        ∃ hi' : i < res.length, res.get ⟨i, hi'⟩ = l.get ⟨i, hi⟩ := by
  intro l
  induction l with
  | nil =>
    intro res h
    simp only [resolveOutputsLoop, Except.ok.injEq] at h
    subst h
    exact ⟨rfl, fun i hi => absurd hi (Nat.not_lt_zero i)⟩
  | cons ot rest ih =>
    intro res h
    cases hps : bun.isOutputSensitive ot.name with
    | mk b eo =>
      cases b with
      | false =>
        have hun : resolveOutputsLoop st s bun (ot :: rest)
            = match resolveOutputsLoop st s bun rest with
              | Except.error e => Except.error e
              | Except.ok rs => Except.ok (ot :: rs) := by
          simp [resolveOutputsLoop, hps]
        rw [hun] at h
        cases hrec : resolveOutputsLoop st s bun rest with
        | error e2 => rw [hrec] at h; simp at h
        | ok rs =>
          rw [hrec] at h
          simp only [Except.ok.injEq] at h
          subst h
          obtain ⟨hlen, hpass⟩ := ih rs hrec
          refine ⟨by simp [hlen], ?_⟩
          intro i hi hcond
          cases i with
          | zero => exact ⟨Nat.succ_pos _, rfl⟩
          | succ j =>
            obtain ⟨hj', heq⟩ := hpass j (Nat.lt_of_succ_lt_succ hi) hcond
            exact ⟨Nat.succ_lt_succ hj', heq⟩
      | true =>
        cases eo with
        | some e0 =>
          have hun : resolveOutputsLoop st s bun (ot :: rest)
              = match resolveOutputsLoop st s bun rest with
                | Except.error e => Except.error e
                | Except.ok rs => Except.ok (ot :: rs) := by
            simp [resolveOutputsLoop, hps]
          rw [hun] at h
          cases hrec : resolveOutputsLoop st s bun rest with
          | error e2 => rw [hrec] at h; simp at h
          | ok rs =>
            rw [hrec] at h
            simp only [Except.ok.injEq] at h
            subst h
            obtain ⟨hlen, hpass⟩ := ih rs hrec
            refine ⟨by simp [hlen], ?_⟩
            intro i hi hcond
            cases i with
            | zero => exact ⟨Nat.succ_pos _, rfl⟩
            | succ j =>
              obtain ⟨hj', heq⟩ := hpass j (Nat.lt_of_succ_lt_succ hi) hcond
              exact ⟨Nat.succ_lt_succ hj', heq⟩
        | none =>
          have hun : resolveOutputsLoop st s bun (ot :: rest)
              = match Service.ResolveOutput st s ot with
                | (_, some e) => Except.error (GoErr.wrap (resolveFailMsg ot.name ot.key) e)
                | (rr, none) =>
                  match resolveOutputsLoop st s bun rest with
                  | Except.error e => Except.error e
                  | Except.ok rs => Except.ok (rr :: rs) := by
            simp [resolveOutputsLoop, hps]
          rw [hun] at h
          cases hro : Service.ResolveOutput st s ot with
          | mk rr oe =>
            cases oe with
            | some e1 => rw [hro] at h; simp at h
            | none =>
              rw [hro] at h
              dsimp only at h
              cases hrec : resolveOutputsLoop st s bun rest with
              | error e2 => rw [hrec] at h; simp at h
              | ok rs =>
                rw [hrec] at h
                simp only [Except.ok.injEq] at h
                subst h
                obtain ⟨hlen, hpass⟩ := ih rs hrec
                refine ⟨by simp [hlen], ?_⟩
                intro i hi hcond
                cases i with
                | zero =>
                  simp only [List.get] at hcond
                  rw [hps] at hcond
                  simp at hcond
                | succ j =>
                  obtain ⟨hj', heq⟩ := hpass j (Nat.lt_of_succ_lt_succ hi) hcond
                  exact ⟨Nat.succ_lt_succ hj', heq⟩

theorem resolveOutputsLoop_err {σ : Type} (st : SecretsOps σ) (s : σ) (bun : ExtendedBundle) :
    ∀ (l : List Output) (e : GoErr), resolveOutputsLoop st s bun l = Except.error e →
      ∃ (j : Nat) (hj : j < l.length) (inner : GoErr),
        bun.isOutputSensitive (l.get ⟨j, hj⟩).name = (true, none) ∧
        (Service.ResolveOutput st s (l.get ⟨j, hj⟩)).2 = some inner ∧
        e = GoErr.wrap (resolveFailMsg (l.get ⟨j, hj⟩).name (l.get ⟨j, hj⟩).key) inner := by
  intro l
  induction l with
  | nil => intro e h; simp [resolveOutputsLoop] at h
  | cons ot rest ih =>
    intro e h
    cases hps : bun.isOutputSensitive ot.name with
    | mk b eo =>
      cases b with
      | false =>
        have hun : resolveOutputsLoop st s bun (ot :: rest)
            = match resolveOutputsLoop st s bun rest with
              | Except.error e => Except.error e
              | Except.ok rs => Except.ok (ot :: rs) := by
          simp [resolveOutputsLoop, hps]
        rw [hun] at h
        cases hrec : resolveOutputsLoop st s bun rest with
        | error e2 =>
          rw [hrec] at h
          dsimp only at h
          injection h with h
          obtain ⟨j, hj, inner, h1, h2, h3⟩ := ih e2 hrec
          exact ⟨j + 1, Nat.succ_lt_succ hj, inner, h1, h2, h ▸ h3⟩
        | ok rs => rw [hrec] at h; simp at h
      | true =>
        cases eo with
        | some e0 =>
          have hun : resolveOutputsLoop st s bun (ot :: rest)
              = match resolveOutputsLoop st s bun rest with
                | Except.error e => Except.error e
                | Except.ok rs => Except.ok (ot :: rs) := by
            simp [resolveOutputsLoop, hps]
          rw [hun] at h
          cases hrec : resolveOutputsLoop st s bun rest with
          | error e2 =>
            rw [hrec] at h
            dsimp only at h
            injection h with h
            obtain ⟨j, hj, inner, h1, h2, h3⟩ := ih e2 hrec
            exact ⟨j + 1, Nat.succ_lt_succ hj, inner, h1, h2, h ▸ h3⟩
          | ok rs => rw [hrec] at h; simp at h
        | none =>
          have hun : resolveOutputsLoop st s bun (ot :: rest)
              = match Service.ResolveOutput st s ot with
                | (_, some e) => Except.error (GoErr.wrap (resolveFailMsg ot.name ot.key) e)
                | (rr, none) =>
                  match resolveOutputsLoop st s bun rest with
                  | Except.error e => Except.error e
                  | Except.ok rs => Except.ok (rr :: rs) := by
            simp [resolveOutputsLoop, hps]
          rw [hun] at h
          cases hro : Service.ResolveOutput st s ot with
          | mk rr oe =>
            cases oe with
            | some e1 =>
              rw [hro] at h
              dsimp only at h
              injection h with h
              refine ⟨0, Nat.succ_pos _, e1, hps, ?_, h.symm⟩
              show (Service.ResolveOutput st s ot).2 = some e1
              rw [hro]
            | none =>
              rw [hro] at h
              dsimp only at h
              cases hrec : resolveOutputsLoop st s bun rest with
              | error e2 =>
                rw [hrec] at h
                dsimp only at h
                injection h with h
                obtain ⟨j, hj, inner, h1, h2, h3⟩ := ih e2 hrec
                exact ⟨j + 1, Nat.succ_lt_succ hj, inner, h1, h2, h ▸ h3⟩
              | ok rs => rw [hrec] at h; simp at h

/-- C5: for every batch of outputs, a failure to resolve any sensitive
output makes `ResolveOutputs` return the original batch together with a
wrapped error naming the offending output and its key, with no partial
results; in the success case, outputs that are non-sensitive or whose
sensitivity check errors are passed through unchanged at their original
positions. -/
theorem resolveOutputs_batch_contract
    {σ : Type} (st : SecretsOps σ) (s : σ) (bun : ExtendedBundle) (o : List Output) :
    (∀ (res : List Output) (e : GoErr),
      Service.ResolveOutputs st s o bun = (res, some e) →
      res = o ∧ ∃ (j : Nat) (hj : j < o.length) (inner : GoErr),
        bun.isOutputSensitive (o.get ⟨j, hj⟩).name = (true, none) ∧
        (Service.ResolveOutput st s (o.get ⟨j, hj⟩)).2 = some inner ∧
        e = GoErr.wrap (resolveFailMsg (o.get ⟨j, hj⟩).name (o.get ⟨j, hj⟩).key) inner) ∧
    (∀ res : List Output,
      Service.ResolveOutputs st s o bun = (res, none) →
      res.length = o.length ∧
      ∀ (i : Nat) (hi : i < o.length),
        ((bun.isOutputSensitive (o.get ⟨i, hi⟩).name).2.isSome = true ∨
         (bun.isOutputSensitive (o.get ⟨i, hi⟩).name).1 = false) →
        ∃ hi' : i < res.length, res.get ⟨i, hi'⟩ = o.get ⟨i, hi⟩) := by
  constructor
  · intro res e h
    cases hl : resolveOutputsLoop st s bun o with
    | ok rs =>
      have : Service.ResolveOutputs st s o bun = (rs, none) := by
        simp [Service.ResolveOutputs, hl, NewOutputs]
      rw [this] at h
      simp at h
    | error e' =>
      have : Service.ResolveOutputs st s o bun = (o, some e') := by
        simp [Service.ResolveOutputs, hl]
      rw [this] at h
      simp only [Prod.mk.injEq, Option.some.injEq] at h
      obtain ⟨h1, h2⟩ := h
      subst h2
      exact ⟨h1.symm, resolveOutputsLoop_err st s bun o e' hl⟩
  · intro res h
    cases hl : resolveOutputsLoop st s bun o with
    | error e' =>
      have : Service.ResolveOutputs st s o bun = (o, some e') := by
        simp [Service.ResolveOutputs, hl]
      rw [this] at h
      simp at h
    | ok rs =>
      have : Service.ResolveOutputs st s o bun = (rs, none) := by
        simp [Service.ResolveOutputs, hl, NewOutputs]
      rw [this] at h
      simp only [Prod.mk.injEq] at h
      obtain ⟨h1, _⟩ := h
      subst h1
      exact resolveOutputsLoop_ok st s bun o rs hl

/-- Closed instance of C5: resolving a sensitive output against an
empty store fails, and the batch comes back exactly as submitted. -/
theorem resolveOutputs_batch_contract_witness :
    (Service.ResolveOutputs memStore ([] : SecretsState) [outLogKeyed] bunOutSens).1
      = [outLogKeyed] := by
  have h := (resolveOutputs_batch_contract memStore ([] : SecretsState) bunOutSens [outLogKeyed]).1
      (Service.ResolveOutputs memStore ([] : SecretsState) [outLogKeyed] bunOutSens).1
      errLogNotFound rfl
  exact h.1

end Porter
